import Mathlib

/-!
Verification of the CounterStrikeSharp tick scheduler
(`src/core/tick_scheduler.cpp`) and the player-iterator natives
(`src/scripting/natives/natives_players.cpp`), via a shallow embedding.

The scheduler owns a queue of `(tick, callback)` pairs.  `schedule`
enqueues at the back; `getCallbacks` (the spec's `collectDue`) dequeues
every task, pushes the due ones (`dueTick ≤ currentTick`) onto the result
vector, keeps the rest in `allTasks`, and re-enqueues `allTasks` in order.
The sequential semantics of the underlying queue is a FIFO list.
-/

namespace CounterStrikeSharp

/-- The scheduler state: the contents of `scheduledTasks`, front first.
Callbacks are opaque values of a type parameter `α`. -/
structure TickScheduler (α : Type) where
  scheduledTasks : List (Int × α)
deriving Repr, DecidableEq

/-- `TickScheduler::schedule`: enqueue the pair `(tick, callback)`. -/
def schedule {α : Type} (s : TickScheduler α) (tick : Int) (callback : α) :
    TickScheduler α :=
  { scheduledTasks := s.scheduledTasks ++ [(tick, callback)] }

/-- The `while (scheduledTasks.try_dequeue(task))` loop of
`TickScheduler::getCallbacks`, with the two push-back accumulators
`callbacksToRun` and `allTasks` made explicit. -/
def drainLoop {α : Type} (currentTick : Int) :
    List (Int × α) → List α → List (Int × α) → List α × List (Int × α)
  | [], callbacksToRun, allTasks => (callbacksToRun, allTasks)
  | task :: rest, callbacksToRun, allTasks =>
    if task.1 ≤ currentTick then
      drainLoop currentTick rest (callbacksToRun ++ [task.2]) allTasks
    else
      drainLoop currentTick rest callbacksToRun (allTasks ++ [task])

/-- `TickScheduler::getCallbacks`: drain the whole queue, keep the due
callbacks, re-enqueue the remaining tasks, return the due callbacks. -/
def getCallbacks {α : Type} (s : TickScheduler α) (currentTick : Int) :
    List α × TickScheduler α :=
  let r := drainLoop currentTick s.scheduledTasks [] []
  (r.1, { scheduledTasks := r.2 })

/-- The empty scheduler. -/
def emptyScheduler (α : Type) : TickScheduler α := { scheduledTasks := [] }

theorem decide_lt_eq_not_decide_le (T x : Int) :
    decide (T < x) = ! decide (x ≤ T) := by
  by_cases h : x ≤ T
  · simp [h, not_lt.mpr h]
  · simp [h, lt_of_not_le h]

/-- The drain loop computes a stable partition of the queue by the due
predicate, appended to the running accumulators. -/
theorem drainLoop_eq {α : Type} (currentTick : Int) (q : List (Int × α))
    (cbs : List α) (pending : List (Int × α)) :
    drainLoop currentTick q cbs pending =
      (cbs ++ (q.filter fun t => decide (t.1 ≤ currentTick)).map Prod.snd,
       pending ++ q.filter fun t => decide (currentTick < t.1)) := by
  induction q generalizing cbs pending with
  | nil => simp [drainLoop]
  | cons task rest ih =>
    by_cases h : task.1 ≤ currentTick
    · simp [drainLoop, h, ih, not_lt.mpr h, List.filter_cons]
    · simp [drainLoop, h, ih, lt_of_not_le h, List.filter_cons]

/-- Closed form of `getCallbacks`: the returned callbacks are the due
tasks' callbacks in queue order, and the new queue holds exactly the
not-yet-due tasks in queue order. -/
theorem getCallbacks_eq {α : Type} (s : TickScheduler α) (T : Int) :
    getCallbacks s T =
      ((s.scheduledTasks.filter fun t => decide (t.1 ≤ T)).map Prod.snd,
       { scheduledTasks := s.scheduledTasks.filter fun t => decide (T < t.1) }) := by
  simp [getCallbacks, drainLoop_eq]

/-- An external call into the scheduler: either a producer's `schedule`
or the consumer's `collectDue` (`getCallbacks`). -/
inductive SchedulerOp (α : Type) where
  | scheduleOp (tick : Int) (callback : α)
  | collectDueOp (currentTick : Int)
deriving Repr, DecidableEq

/-- Run a sequence of scheduler calls, collecting the output sequence of
each `collectDue` call. -/
def runOps {α : Type} : List (SchedulerOp α) → TickScheduler α →
    TickScheduler α × List (List α)
  | [], s => (s, [])
  | SchedulerOp.scheduleOp t cb :: rest, s => runOps rest (schedule s t cb)
  | SchedulerOp.collectDueOp T :: rest, s =>
    let r := getCallbacks s T
    let k := runOps rest r.2
    (k.1, r.1 :: k.2)

/-- The callbacks submitted by the `schedule` calls of an op sequence,
in submission order. -/
def scheduledCallbacks {α : Type} (ops : List (SchedulerOp α)) : List α :=
  ops.filterMap fun op =>
    match op with
    | SchedulerOp.scheduleOp _ cb => some cb
    | SchedulerOp.collectDueOp _ => none

/-!
Player-iterator natives (`natives_players.cpp`).  A handle passed from
the scripting runtime is either null (`none`) or a live
`PlayerManager::ConnectedPlayerIterator` (`some it`).  The underlying
iterator type and its member functions live outside this repository slice,
so they are opaque parameters: each native is defined for every possible
underlying behavior.
-/

/-- `IteratorHasNext`: null handle yields `false`, otherwise the
underlying `HasNext` is called. -/
def IteratorHasNext {ι : Type} (hasNext : ι → Bool) (it : Option ι) : Bool :=
  match it with
  | none => false
  | some i => hasNext i

/-- `IteratorGetCurrentSlot`: null handle yields `-1`, otherwise the
underlying `GetCurrentSlot` is called. -/
def IteratorGetCurrentSlot {ι : Type} (getCurrentSlot : ι → Int)
    (it : Option ι) : Int :=
  match it with
  | none => -1
  | some i => getCurrentSlot i

/-- `IteratorMoveNext`: null handle is left untouched, otherwise the
underlying `MoveNext` advances the iterator. -/
def IteratorMoveNext {ι : Type} (moveNext : ι → ι) (it : Option ι) :
    Option ι :=
  match it with
  | none => none
  | some i => some (moveNext i)

/-- `DestroyIterator`: returns whether `delete` is executed — `false` for
a null handle (no operation), `true` for a live one. -/
def DestroyIterator {ι : Type} (it : Option ι) : Bool :=
  match it with
  | none => false
  | some _ => true

/-- One `collectDue` call conserves callback multiplicities: each
callback's occurrences split between the returned sequence and the
remaining store. -/
theorem count_getCallbacks {α : Type} [DecidableEq α] (s : TickScheduler α)
    (T : Int) (cb : α) :
    (getCallbacks s T).1.count cb +
      ((getCallbacks s T).2.scheduledTasks.map Prod.snd).count cb =
    (s.scheduledTasks.map Prod.snd).count cb := by
  rw [getCallbacks_eq]
  have hfun : (fun t : Int × α => decide (T < t.1)) =
      fun t => ! decide (t.1 ≤ T) := by
    funext t
    exact decide_lt_eq_not_decide_le T t.1
  simp only [hfun]
  have hperm :=
    ((List.filter_append_perm (fun t : Int × α => decide (t.1 ≤ T))
      s.scheduledTasks).map Prod.snd).count_eq cb
  simpa [List.count_append] using hperm

/-- Multiplicity conservation over a whole call trace: every callback's
occurrences across all `collectDue` outputs plus its occurrences in the
final store equal its scheduled occurrences plus its initial ones. -/
theorem runOps_count {α : Type} [DecidableEq α] (ops : List (SchedulerOp α))
    (s : TickScheduler α) (cb : α) :
    ((runOps ops s).2.flatten).count cb +
      (((runOps ops s).1.scheduledTasks).map Prod.snd).count cb =
    (scheduledCallbacks ops).count cb +
      ((s.scheduledTasks.map Prod.snd)).count cb := by
  induction ops generalizing s with
  | nil => simp [runOps, scheduledCallbacks]
  | cons op rest ih =>
    cases op with
    | scheduleOp t c =>
      have hstep := ih (schedule s t c)
      simp only [runOps] at hstep ⊢
      rw [hstep]
      simp [scheduledCallbacks, schedule, List.count_cons, List.count_append]
      by_cases hc : c = cb
      · simp [hc]
        omega
      · simp [hc]
    | collectDueOp T =>
      have hstep := ih (getCallbacks s T).2
      have hcons := count_getCallbacks s T cb
      simp only [runOps, List.flatten_cons, List.count_append]
      simp only [scheduledCallbacks, List.filterMap_cons] at hstep ⊢
      omega

/-- The number of `collectDue` outputs containing a callback is at most
its total number of occurrences across all outputs. -/
theorem countP_mem_le_count_flatten {α : Type} [DecidableEq α] (cb : α)
    (ls : List (List α)) :
    (ls.countP fun out => decide (cb ∈ out)) ≤ (ls.flatten).count cb := by
  induction ls with
  | nil => simp
  | cons l ls ih =>
    by_cases h : cb ∈ l
    · have h1 : 0 < l.count cb := List.count_pos_iff.mpr h
      simp only [List.countP_cons, List.flatten_cons, List.count_append, h]
      simp
      omega
    · simp only [List.countP_cons, List.flatten_cons, List.count_append, h]
      simp
      omega

/-- C2: at-most-once delivery — across any sequence of `schedule` and
`collectDue` calls starting from the empty store, a callback scheduled at
most once appears in at most one `collectDue` result, appears at most
once in total, and once returned it is absent from the store. -/
theorem atMostOnce_delivery (α : Type) [DecidableEq α]
    (ops : List (SchedulerOp α)) (cb : α)
    (h : (scheduledCallbacks ops).count cb ≤ 1) :
    ((runOps ops (emptyScheduler α)).2.countP fun out => decide (cb ∈ out)) ≤ 1 ∧
    ((runOps ops (emptyScheduler α)).2.flatten).count cb ≤ 1 ∧
    (cb ∈ (runOps ops (emptyScheduler α)).2.flatten →
      cb ∉ ((runOps ops (emptyScheduler α)).1.scheduledTasks).map Prod.snd) := by
  have hcons := runOps_count ops (emptyScheduler α) cb
  simp only [emptyScheduler, List.map_nil, List.count_nil] at hcons
  have hflat : ((runOps ops (emptyScheduler α)).2.flatten).count cb ≤ 1 := by
    simp only [emptyScheduler] at hcons ⊢
    omega
  refine ⟨le_trans (countP_mem_le_count_flatten cb _) hflat, hflat, ?_⟩
  intro hmem
  have h1 : 0 < ((runOps ops (emptyScheduler α)).2.flatten).count cb :=
    List.count_pos_iff.mpr hmem
  intro hstore
  have h2 : 0 <
      (((runOps ops (emptyScheduler α)).1.scheduledTasks).map Prod.snd).count cb :=
    List.count_pos_iff.mpr hstore
  simp only [emptyScheduler] at hcons h1 h2
  omega

/-- Witness for C2: one task, drained twice at its due tick. -/
theorem atMostOnce_delivery_witness :
    ((runOps [SchedulerOp.scheduleOp 1 7, SchedulerOp.collectDueOp 5,
        SchedulerOp.collectDueOp 5] (emptyScheduler Nat)).2.countP
      fun out => decide ((7 : Nat) ∈ out)) ≤ 1 ∧
    ((runOps [SchedulerOp.scheduleOp 1 7, SchedulerOp.collectDueOp 5,
        SchedulerOp.collectDueOp 5] (emptyScheduler Nat)).2.flatten).count 7 ≤ 1 ∧
    ((7 : Nat) ∈ (runOps [SchedulerOp.scheduleOp 1 7, SchedulerOp.collectDueOp 5,
        SchedulerOp.collectDueOp 5] (emptyScheduler Nat)).2.flatten →
      (7 : Nat) ∉ ((runOps [SchedulerOp.scheduleOp 1 7, SchedulerOp.collectDueOp 5,
        SchedulerOp.collectDueOp 5] (emptyScheduler Nat)).1.scheduledTasks).map Prod.snd) :=
  atMostOnce_delivery Nat
    [SchedulerOp.scheduleOp 1 7, SchedulerOp.collectDueOp 5,
     SchedulerOp.collectDueOp 5] 7 (by decide)

/-- Partitioning a filter at `Tf` by an earlier threshold `T ≤ Tf`: the
tasks due by `T` followed by the tasks due strictly after `T` but by `Tf`
are a permutation of the tasks due by `Tf`. -/
theorem filter_le_partition {α : Type} (T Tf : Int) (hT : T ≤ Tf)
    (q : List (Int × α)) :
    ((q.filter fun t => decide (t.1 ≤ T)) ++
      ((q.filter fun t => decide (T < t.1)).filter fun t => decide (t.1 ≤ Tf))).Perm
      (q.filter fun t => decide (t.1 ≤ Tf)) := by
  induction q with
  | nil => simp
  | cons a q ih =>
    by_cases h1 : a.1 ≤ T
    · have h2 : a.1 ≤ Tf := le_trans h1 hT
      simpa [List.filter_cons, h1, not_lt.mpr h1, h2] using ih.cons a
    · by_cases h2 : a.1 ≤ Tf
      · have h3 : T < a.1 := lt_of_not_le h1
        have hmid : ((q.filter fun t => decide (t.1 ≤ T)) ++
            a :: ((q.filter fun t => decide (T < t.1)).filter
              fun t => decide (t.1 ≤ Tf))).Perm
            (a :: (q.filter fun t => decide (t.1 ≤ Tf))) :=
          List.perm_middle.trans (ih.cons a)
        simpa [List.filter_cons, h1, h3, h2] using hmid
      · simpa [List.filter_cons, h1, lt_of_not_le h1, h2] using ih

/-- Running a block of `schedule` calls before further ops appends the
scheduled tasks, in order, to the back of the queue. -/
theorem runOps_append_schedules {α : Type} (tasks : List (Int × α))
    (rest : List (SchedulerOp α)) (s : TickScheduler α) :
    runOps ((tasks.map fun t => SchedulerOp.scheduleOp t.1 t.2) ++ rest) s =
      runOps rest ⟨s.scheduledTasks ++ tasks⟩ := by
  induction tasks generalizing s with
  | nil => simp
  | cons t ts ih =>
    show runOps ((ts.map fun u => SchedulerOp.scheduleOp u.1 u.2) ++ rest)
        (schedule s t.1 t.2) =
      runOps rest { scheduledTasks := s.scheduledTasks ++ t :: ts }
    rw [ih]
    simp [schedule, List.append_assoc]

/-- Draining a queue with a non-decreasing sequence of ticks ending in
`Tf` returns, as a multiset, exactly the tasks due by `Tf`. -/
theorem collect_monotone_perm {α : Type} (q : List (Int × α)) (Ts : List Int)
    (Tf : Int) (h : List.Sorted (fun a b : Int => a ≤ b) (Ts ++ [Tf])) :
    ((runOps ((Ts ++ [Tf]).map SchedulerOp.collectDueOp)
        (⟨q⟩ : TickScheduler α)).2.flatten).Perm
      ((q.filter fun t => decide (t.1 ≤ Tf)).map Prod.snd) := by
  induction Ts generalizing q with
  | nil =>
    simp [runOps, getCallbacks_eq]
  | cons T Ts ih =>
    have hTf : T ≤ Tf := (List.sorted_cons.mp h).1 Tf (by simp)
    have hrest : List.Sorted (fun a b : Int => a ≤ b) (Ts ++ [Tf]) :=
      (List.sorted_cons.mp h).2
    have ihq := ih (q.filter fun t => decide (T < t.1)) hrest
    simp only [List.cons_append, List.map_cons, runOps, getCallbacks_eq,
      List.flatten_cons]
    have hpart := (filter_le_partition T Tf hTf q).map Prod.snd
    rw [List.map_append] at hpart
    exact (ihq.append_left _).trans hpart

/-- C4: monotonic drain completeness — after scheduling a finite list of
tasks and draining with a non-decreasing sequence of ticks ending at
`Tf`, the concatenation of all returned sequences is a permutation of the
callbacks of all tasks scheduled with `dueTick ≤ Tf`: none omitted, none
duplicated. -/
theorem monotonic_drain_complete (α : Type) (tasks : List (Int × α))
    (Ts : List Int) (Tf : Int)
    (h : List.Sorted (fun a b : Int => a ≤ b) (Ts ++ [Tf])) :
    ((runOps ((tasks.map fun t => SchedulerOp.scheduleOp t.1 t.2) ++
        (Ts ++ [Tf]).map SchedulerOp.collectDueOp)
        (emptyScheduler α)).2.flatten).Perm
      ((tasks.filter fun t => decide (t.1 ≤ Tf)).map Prod.snd) := by
  rw [runOps_append_schedules]
  simpa [emptyScheduler] using collect_monotone_perm tasks Ts Tf h

/-- Witness for C4: tasks at ticks 5, 10, 15 drained at ticks 7 then 12. -/
theorem monotonic_drain_complete_witness :
    ((runOps ((([((5 : Int), (0 : Nat)), (10, 1), (15, 2)]).map
        fun t => SchedulerOp.scheduleOp t.1 t.2) ++
        (([7] ++ [12]) : List Int).map SchedulerOp.collectDueOp)
        (emptyScheduler Nat)).2.flatten).Perm
      ((([((5 : Int), (0 : Nat)), (10, 1), (15, 2)]).filter
        fun t => decide (t.1 ≤ (12 : Int))).map Prod.snd) :=
  monotonic_drain_complete Nat [(5, 0), (10, 1), (15, 2)] [7] 12
    (by simp [List.sorted_cons])

/-- C1: `collectDue(currentTick)` removes from the store every task with
`dueTick ≤ currentTick` and returns exactly those tasks' callbacks, while
every not-yet-due task stays out of the returned sequence and in the
store; and on the scenario {5, 10, 10, 15}, `collectDue(10)` returns the
three tasks due at 5 and 10, a next `collectDue(15)` returns the tick-15
task, and a next `collectDue(100)` returns nothing. -/
theorem collectDue_partition_and_scenario :
    (∀ (α : Type) (s : TickScheduler α) (T : Int),
      (getCallbacks s T).1 =
        (s.scheduledTasks.filter fun t => decide (t.1 ≤ T)).map Prod.snd ∧
      (getCallbacks s T).2.scheduledTasks =
        s.scheduledTasks.filter fun t => decide (T < t.1)) ∧
    (let s0 : TickScheduler Nat :=
      schedule (schedule (schedule (schedule (emptyScheduler Nat) 5 0) 10 1) 10 2) 15 3
     let r1 := getCallbacks s0 10
     let r2 := getCallbacks r1.2 15
     let r3 := getCallbacks r2.2 100
     r1.1 = [0, 1, 2] ∧ r2.1 = [3] ∧ r3.1 = []) := by
  constructor
  · intro α s T
    rw [getCallbacks_eq]
    exact ⟨rfl, rfl⟩
  · decide

/-- C3: a task with `dueTick > currentTick` that is in the store when
`collectDue(currentTick)` runs is still in the store afterward, with the
same due tick and callback, and with unchanged multiplicity. -/
theorem notDue_task_preserved (α : Type) [DecidableEq α]
    (s : TickScheduler α) (T : Int) (task : Int × α)
    (hmem : task ∈ s.scheduledTasks) (hdue : T < task.1) :
    task ∈ (getCallbacks s T).2.scheduledTasks ∧
    (getCallbacks s T).2.scheduledTasks.count task =
      s.scheduledTasks.count task := by
  rw [getCallbacks_eq]
  refine ⟨List.mem_filter.mpr ⟨hmem, by simpa using hdue⟩, ?_⟩
  exact List.count_filter (by simpa using hdue)

/-- Witness for C3 at a concrete store. -/
theorem notDue_task_preserved_witness :
    (7, 1) ∈ (getCallbacks (⟨[(2, 0), (7, 1)]⟩ : TickScheduler Nat) 5).2.scheduledTasks ∧
    (getCallbacks (⟨[(2, 0), (7, 1)]⟩ : TickScheduler Nat) 5).2.scheduledTasks.count (7, 1) =
      ([(2, 0), (7, 1)] : List (Int × Nat)).count (7, 1) :=
  notDue_task_preserved Nat ⟨[(2, 0), (7, 1)]⟩ 5 (7, 1) (by decide) (by decide)

/-- C5: when no stored task is due at `T`, `collectDue(T)` returns the
empty sequence and leaves the store unchanged; in particular on the
empty store. -/
theorem collectDue_noop_when_none_due (α : Type) (s : TickScheduler α)
    (T : Int) (h : ∀ t ∈ s.scheduledTasks, T < t.1) :
    getCallbacks s T = ([], s) := by
  rw [getCallbacks_eq]
  have h1 : s.scheduledTasks.filter (fun t => decide (t.1 ≤ T)) = [] := by
    rw [List.filter_eq_nil_iff]
    intro t ht
    simp [not_le.mpr (h t ht)]
  have h2 : s.scheduledTasks.filter (fun t => decide (T < t.1)) = s.scheduledTasks := by
    rw [List.filter_eq_self]
    intro t ht
    simp [h t ht]
  simp [h1, h2]

/-- Witness for C5: `collectDue(0)` on the empty store. -/
theorem collectDue_noop_when_none_due_witness :
    getCallbacks (emptyScheduler Nat) 0 = ([], emptyScheduler Nat) :=
  collectDue_noop_when_none_due Nat (emptyScheduler Nat) 0 (by simp [emptyScheduler])

/-- C6: a task scheduled at any tick `t ≤ currentTick` (past or present)
is returned by the very next `collectDue(currentTick)` call. -/
theorem scheduled_due_returned_next (α : Type) (s : TickScheduler α)
    (t : Int) (cb : α) (T : Int) (h : t ≤ T) :
    cb ∈ (getCallbacks (schedule s t cb) T).1 := by
  rw [getCallbacks_eq]
  exact List.mem_map.mpr
    ⟨(t, cb), List.mem_filter.mpr ⟨by simp [schedule], by simpa using h⟩, rfl⟩

/-- Witness for C6: a task scheduled in the past (tick 3, drained at 5). -/
theorem scheduled_due_returned_next_witness :
    (7 : Nat) ∈ (getCallbacks (schedule (emptyScheduler Nat) 3 7) 5).1 :=
  scheduled_due_returned_next Nat (emptyScheduler Nat) 3 7 5 (by decide)

/-- C7: `collectDue` is a deterministic function of the store state and
the tick — two runs from identical stores return the same sequence and
leave the same store. -/
theorem collectDue_deterministic (α : Type) (s₁ s₂ : TickScheduler α)
    (T : Int) (h : s₁.scheduledTasks = s₂.scheduledTasks) :
    (getCallbacks s₁ T).1 = (getCallbacks s₂ T).1 ∧
    (getCallbacks s₁ T).2 = (getCallbacks s₂ T).2 := by
  cases s₁
  cases s₂
  cases h
  exact ⟨rfl, rfl⟩

/-- Witness for C7 on two identical copies of a concrete store. -/
theorem collectDue_deterministic_witness :
    (getCallbacks (⟨[(1, 2)]⟩ : TickScheduler Nat) 0).1 =
      (getCallbacks (⟨[(1, 2)]⟩ : TickScheduler Nat) 0).1 ∧
    (getCallbacks (⟨[(1, 2)]⟩ : TickScheduler Nat) 0).2 =
      (getCallbacks (⟨[(1, 2)]⟩ : TickScheduler Nat) 0).2 :=
  collectDue_deterministic Nat ⟨[(1, 2)]⟩ ⟨[(1, 2)]⟩ 0 rfl

/-- C9: in the sequential FIFO model, `collectDue` returns the due
callbacks in enqueue order, and the remaining tasks keep their original
relative order — a stable partition of the queue. -/
theorem collectDue_fifo_stable_partition (α : Type) (s : TickScheduler α)
    (T : Int) :
    (getCallbacks s T).1 =
      (s.scheduledTasks.filter fun t => decide (t.1 ≤ T)).map Prod.snd ∧
    (getCallbacks s T).2.scheduledTasks =
      s.scheduledTasks.filter (fun t => decide (T < t.1)) ∧
    List.Sublist (getCallbacks s T).2.scheduledTasks s.scheduledTasks := by
  rw [getCallbacks_eq]
  exact ⟨rfl, rfl, List.filter_sublist _⟩

/-- C10: each player-iterator native tolerates a null handle without
touching the underlying iterator: `IteratorHasNext` yields `false`,
`IteratorGetCurrentSlot` yields `-1`, `IteratorMoveNext` and
`DestroyIterator` do nothing — for every possible underlying iterator
behavior. -/
theorem null_iterator_natives :
    ∀ (ι : Type) (hasNext : ι → Bool) (getCurrentSlot : ι → Int)
      (moveNext : ι → ι),
      IteratorHasNext hasNext (none : Option ι) = false ∧
      IteratorGetCurrentSlot getCurrentSlot (none : Option ι) = -1 ∧
      IteratorMoveNext moveNext (none : Option ι) = none ∧
      DestroyIterator (none : Option ι) = false := by
  intro ι hn gs mn
  exact ⟨rfl, rfl, rfl, rfl⟩

end CounterStrikeSharp
